import Mathlib

/-!
Verification development for the CODEOWNERS ownership-resolution core of the
search-by-codeowner extension (src/codeOwnerService.ts).

The TypeScript class CodeOwnerService is shallowly embedded below.  JavaScript
string primitives (trim, split, startsWith, endsWith, includes, slice,
replace) are modelled as structurally recursive functions over the character
list of a Lean String, so that every definition evaluates inside the kernel.
For the ASCII inputs the service handles, these models agree with the
UTF-16-code-unit semantics of the JavaScript originals.
-/

namespace SearchByCodeowner

/-- Model of JavaScript String.prototype.trim restricted to the ASCII
whitespace characters recognised by Char.isWhitespace (space, tab, CR, LF):
drop whitespace from both ends. -/
def jsTrim (s : String) : String :=
  String.mk (((s.data.dropWhile Char.isWhitespace).reverse.dropWhile
    Char.isWhitespace).reverse)

/-- Model of JavaScript s.split(sep) for a single-character separator,
keeping empty pieces exactly as JavaScript does. -/
def splitCharAux (sep : Char) : List Char → List String
  | [] => [""]
  | c :: rest =>
    if c = sep then
      "" :: splitCharAux sep rest
    else
      match splitCharAux sep rest with
      | [] => [String.mk [c]]
      | h :: t => String.mk (c :: h.data) :: t

/-- Model of content.split (a newline string) from parseCodeOwnersContent. -/
def jsSplitLines (content : String) : List String :=
  splitCharAux '\n' content.data

/-- Helper for jsSplitWS: accumulate the current token (reversed) while
scanning; flush it at each maximal whitespace run. -/
def wordsAux : List Char → List Char → List String
  | [], cur => if cur.isEmpty then [] else [String.mk cur.reverse]
  | c :: rest, cur =>
    if c.isWhitespace then
      if cur.isEmpty then wordsAux rest []
      else String.mk cur.reverse :: wordsAux rest []
    else wordsAux rest (c :: cur)

/-- Model of line.split on runs of whitespace, as used on an already trimmed
line in parseCodeOwnersContent: the maximal whitespace runs separate tokens,
and a trimmed line yields no empty tokens. -/
def jsSplitWS (s : String) : List String :=
  wordsAux s.data []

/-- Model of JavaScript s.startsWith(pre). -/
def jsStartsWith (s pre : String) : Bool :=
  pre.data.isPrefixOf s.data

/-- Model of JavaScript s.endsWith(suf). -/
def jsEndsWith (s suf : String) : Bool :=
  suf.data.isSuffixOf s.data

/-- Helper for jsIncludes: does sub occur as a contiguous run in the list. -/
def includesAux (sub : List Char) : List Char → Bool
  | [] => sub.isEmpty
  | c :: rest => sub.isPrefixOf (c :: rest) || includesAux sub rest

/-- Model of JavaScript s.includes(sub). -/
def jsIncludes (s sub : String) : Bool :=
  includesAux sub.data s.data

/-- Model of JavaScript s.slice(n) for a nonnegative index n. -/
def jsDrop (s : String) (n : Nat) : String :=
  String.mk (s.data.drop n)

/-- Model of JavaScript s.slice(0, -1): drop the final character. -/
def jsDropLast (s : String) : String :=
  String.mk s.data.dropLast

/-- Model of JavaScript s.replace with a global single-character needle:
every occurrence of the character is replaced by the given replacement. -/
def replaceChar (needle : Char) (repl : List Char) : List Char → List Char
  | [] => []
  | c :: rest =>
    if c = needle then repl ++ replaceChar needle repl rest
    else c :: replaceChar needle repl rest

/-- One parsed CODEOWNERS rule (interface CodeOwnerRule). -/
structure CodeOwnerRule where
  pattern : String
  owners : List String
deriving DecidableEq

/-- Result of the single-file ownership query (interface CodeOwnerInfo). -/
structure CodeOwnerInfo where
  owners : List String
  isUnowned : Bool
  matchingPattern : Option String
deriving DecidableEq

/-- Result of the per-owner bulk pattern query. -/
structure OwnerPatternSets where
  includePatterns : List String
  excludePatterns : List String
deriving DecidableEq

/-- The instance state of class CodeOwnerService: the ordered rule list, the
owner set (a JavaScript Set, modelled as an insertion-ordered duplicate-free
list), and the located rule-file path. -/
structure CodeOwnerService where
  codeOwnerRules : List CodeOwnerRule
  allOwners : List String
  codeOwnersFilePath : Option String
deriving DecidableEq

/-- Model of JavaScript Set.prototype.add: append the element unless already
present, preserving insertion order. -/
def addOwner (set : List String) (o : String) : List String :=
  if o ∈ set then set else set ++ [o]

/-- One iteration of the line loop of parseCodeOwnersContent: trim the line,
skip empty and comment lines, split on whitespace, skip lines with fewer than
two tokens, keep the owner tokens that contain an at sign, and push either an
owners-empty rule or an owned rule while accumulating the owner set. -/
def parseLine (acc : List CodeOwnerRule × List String) (rawLine : String) :
    List CodeOwnerRule × List String :=
  if jsTrim rawLine = "" then acc
  else if jsStartsWith (jsTrim rawLine) "#" then acc
  else if (jsSplitWS (jsTrim rawLine)).length < 2 then acc
  else if (((jsSplitWS (jsTrim rawLine)).tail.filter
      (fun t => jsIncludes t "@")).map jsTrim).isEmpty then
    (acc.1 ++ [⟨(jsSplitWS (jsTrim rawLine)).headD "", ([] : List String)⟩], acc.2)
  else
    (acc.1 ++ [⟨(jsSplitWS (jsTrim rawLine)).headD "",
        ((jsSplitWS (jsTrim rawLine)).tail.filter
          (fun t => jsIncludes t "@")).map jsTrim⟩],
      (((jsSplitWS (jsTrim rawLine)).tail.filter
        (fun t => jsIncludes t "@")).map jsTrim).foldl addOwner acc.2)

/-- Model of parseCodeOwnersContent: reset the rule list and owner set, then
fold the line parser over the newline-split content.  The located file path is
untouched. -/
def parseCodeOwnersContent (content : String) (s : CodeOwnerService) :
    CodeOwnerService :=
  { s with
    codeOwnerRules := ((jsSplitLines content).foldl parseLine ([], [])).1
    allOwners := ((jsSplitLines content).foldl parseLine ([], [])).2 }

/-- Model of initialize: probing the candidate file locations is external
file-system input; its outcome is either no file found (state stays empty with
no recorded path) or the first found file, whose path is recorded and whose
text is parsed. -/
def initializeState (found : Option (String × String)) : CodeOwnerService :=
  match found with
  | none => ⟨[], [], none⟩
  | some (filePath, content) =>
    parseCodeOwnersContent content ⟨[], [], some filePath⟩

/-- Model of hasCodeOwnersFile: whether a rule-file path was recorded. -/
def hasCodeOwnersFile (s : CodeOwnerService) : Bool :=
  s.codeOwnersFilePath.isSome

/-- Model of getAllOwners: the owner set sorted, as Array.from(set).sort()
sorts the deduplicated owner strings lexicographically. -/
def getAllOwners (s : CodeOwnerService) : List String :=
  List.insertionSort (· ≤ ·) s.allOwners

/-- The translated wildcard regex text built inside matchesPattern: escape
dots, then turn each star into dot-star, then each question mark into a dot,
in exactly that order. -/
def translateWildcardPattern (pattern : String) : List Char :=
  replaceChar '?' ['.']
    (replaceChar '*' ['.', '*']
      (replaceChar '.' ['\\', '.'] pattern.data))

/-- Token of the regular-expression fragment that the translation can
produce: a literal character, a dot wildcard, or a starred atom. -/
inductive RTok where
  | lit (c : Char)
  | wilddot
  | starLit (c : Char)
  | starDot
deriving DecidableEq

/-- Parse the translated regex text into tokens.  A backslash escapes the
next character; a star attaches to the preceding atom.  A star with no
preceding atom or a trailing backslash is an invalid expression, modelled as
failure just as the RegExp constructor throws (caught, yielding no match).
Literal characters other than the translated wildcards match themselves; the
service never escapes further regex metacharacters, and the specification
scopes patterns to the wildcards star and question mark only. -/
def regexTokens : List Char → Option (List RTok)
  | [] => some []
  | '\\' :: c :: '*' :: rest => (regexTokens rest).map (RTok.starLit c :: ·)
  | '\\' :: c :: rest => (regexTokens rest).map (RTok.lit c :: ·)
  | '\\' :: [] => none
  | '*' :: _ => none
  | '.' :: '*' :: rest => (regexTokens rest).map (RTok.starDot :: ·)
  | '.' :: rest => (regexTokens rest).map (RTok.wilddot :: ·)
  | c :: '*' :: rest => (regexTokens rest).map (RTok.starLit c :: ·)
  | c :: rest => (regexTokens rest).map (RTok.lit c :: ·)

/-- Fuelled anchored matcher for the token list against the character list.
Each step strictly decreases the combined length of the two lists, so the
fuel supplied by rtokMatch is always sufficient and the out-of-fuel branch is
unreachable. -/
def rtokMatchFuel : Nat → List RTok → List Char → Bool
  | 0, _, _ => false
  | _ + 1, [], [] => true
  | _ + 1, [], _ :: _ => false
  | _ + 1, RTok.lit _ :: _, [] => false
  | n + 1, RTok.lit c :: ts, d :: ds => c = d && rtokMatchFuel n ts ds
  | _ + 1, RTok.wilddot :: _, [] => false
  | n + 1, RTok.wilddot :: ts, _ :: ds => rtokMatchFuel n ts ds
  | n + 1, RTok.starLit _ :: ts, [] => rtokMatchFuel n ts []
  | n + 1, RTok.starLit c :: ts, d :: ds =>
    rtokMatchFuel n ts (d :: ds) || (c = d && rtokMatchFuel n (RTok.starLit c :: ts) ds)
  | n + 1, RTok.starDot :: ts, [] => rtokMatchFuel n ts []
  | n + 1, RTok.starDot :: ts, d :: ds =>
    rtokMatchFuel n ts (d :: ds) || rtokMatchFuel n (RTok.starDot :: ts) ds

/-- Anchored match of a token list against a character list. -/
def rtokMatch (ts : List RTok) (s : List Char) : Bool :=
  rtokMatchFuel (ts.length + s.length + 1) ts s

/-- The wildcard branch of matchesPattern: build the translated regex,
anchor it at both ends, and test the path; an invalid expression is caught
and treated as no match. -/
def wildcardRegexTest (filePath pattern : String) : Bool :=
  match regexTokens (translateWildcardPattern pattern) with
  | none => false
  | some ts => rtokMatch ts filePath.data

/-- Model of matchesPattern: the per-pattern classification chain of the
source, in source order: the global star, directory patterns (trailing slash,
or no star and no dot), extension patterns, root-anchored patterns, wildcard
patterns via the translated regex, and the exact-or-filename fallback. -/
def matchesPattern (filePath pattern : String) : Bool :=
  if pattern = "*" then true
  else if jsEndsWith pattern "/" || (!jsIncludes pattern "*" && !jsIncludes pattern ".") then
    let dirPattern := if jsEndsWith pattern "/" then jsDropLast pattern else pattern
    if jsStartsWith dirPattern "/" then
      let absoluteDir := jsDrop dirPattern 1
      jsStartsWith filePath (absoluteDir ++ "/") || decide (filePath = absoluteDir)
    else
      jsStartsWith filePath (dirPattern ++ "/") ||
        jsIncludes filePath ("/" ++ dirPattern ++ "/") || decide (filePath = dirPattern)
  else if jsStartsWith pattern "*." then
    jsEndsWith filePath (jsDrop pattern 1)
  else if jsStartsWith pattern "/" then
    jsStartsWith filePath (jsDrop pattern 1)
  else if jsIncludes pattern "*" then
    wildcardRegexTest filePath pattern
  else
    decide (filePath = pattern) || jsEndsWith filePath ("/" ++ pattern)

/-- The findLast call of getCodeOwnerForFile: the last rule in list order
whose pattern matches the path. -/
def findLastMatchingRule (rules : List CodeOwnerRule) (path : String) :
    Option CodeOwnerRule :=
  rules.reverse.find? (fun rule => matchesPattern path rule.pattern)

/-- Model of getCodeOwnerForFile.  The query path is taken already normalized
to a workspace-relative forward-slash form, as the data-model invariant
requires; the workspace-folder lookup that produces it is external input.  If
no rule file was recorded or the rule list is empty the file is unowned by
default; otherwise the last matching rule decides. -/
def getCodeOwnerForFile (s : CodeOwnerService) (normalizedPath : String) :
    CodeOwnerInfo :=
  if s.codeOwnersFilePath.isNone || s.codeOwnerRules.isEmpty then
    ⟨[], true, none⟩
  else
    match findLastMatchingRule s.codeOwnerRules normalizedPath with
    | none => ⟨[], true, none⟩
    | some rule => ⟨rule.owners, rule.owners.isEmpty, some rule.pattern⟩

/-- Model of getAllOwnedPatterns: patterns of the rules with owners. -/
def getAllOwnedPatterns (s : CodeOwnerService) : List String :=
  (s.codeOwnerRules.filter (fun rule => !rule.owners.isEmpty)).map
    (fun rule => rule.pattern)

/-- Model of getUnownedPatterns: patterns of the owners-empty rules. -/
def getUnownedPatterns (s : CodeOwnerService) : List String :=
  (s.codeOwnerRules.filter (fun rule => rule.owners.isEmpty)).map
    (fun rule => rule.pattern)

/-- Model of getPatternsForUnowned. -/
def getPatternsForUnowned (s : CodeOwnerService) : OwnerPatternSets :=
  ⟨if (getUnownedPatterns s).length > 0 then getUnownedPatterns s else ["**/*"],
    if (getUnownedPatterns s).length > 0 then [] else getAllOwnedPatterns s⟩

/-- Model of getPatternsForAllOwned. -/
def getPatternsForAllOwned (s : CodeOwnerService) : OwnerPatternSets :=
  ⟨if (getAllOwnedPatterns s).length > 0 then getAllOwnedPatterns s else ["**/*"],
    getUnownedPatterns s⟩

/-- Model of the base-directory extraction in wouldOverride: the replace of
the regex that removes, from the leftmost star on, the star, its tail, and a
slash immediately before it. -/
def stripWildcardTailAux : List Char → List Char
  | [] => []
  | '/' :: '*' :: _ => []
  | '*' :: _ => []
  | c :: rest => c :: stripWildcardTailAux rest

/-- The base directory of a pattern, as wouldOverride computes it. -/
def stripWildcardTail (p : String) : String :=
  String.mk (stripWildcardTailAux p.data)

/-- Model of wouldOverride: the heuristic chain deciding whether a later
pattern overrides the files of an earlier one, reproduced branch for branch
including the early return of the specific-file branch. -/
def wouldOverride (earlierPattern laterPattern : String) : Bool :=
  if earlierPattern = laterPattern then true
  else if jsStartsWith earlierPattern "*." && jsIncludes laterPattern "/" &&
      jsEndsWith laterPattern (jsDrop earlierPattern 1) then true
  else if jsStartsWith earlierPattern "*." && jsIncludes laterPattern "/" &&
      !jsIncludes laterPattern "*" then
    jsEndsWith laterPattern (jsDrop earlierPattern 1)
  else if jsIncludes earlierPattern "/" && jsIncludes laterPattern "/" then
    jsStartsWith (stripWildcardTail laterPattern) (stripWildcardTail earlierPattern) &&
      decide ((stripWildcardTail laterPattern).data.length >
        (stripWildcardTail earlierPattern).data.length)
  else false

/-- Model of findOverridingPatterns.  The source locates the scanned rule by
object identity with indexOf over the instance rule list; that position is
passed here directly as ownerRuleIndex, with the rule pattern alongside, and
the rules strictly after that index are scanned in order. -/
def findOverridingPatterns (rules : List CodeOwnerRule) (ownerRuleIndex : Nat)
    (ownerRulePattern : String) (owner : String) : List String :=
  ((rules.drop (ownerRuleIndex + 1)).filter
    (fun laterRule => wouldOverride ownerRulePattern laterRule.pattern &&
      !decide (owner ∈ laterRule.owners))).map (fun laterRule => laterRule.pattern)

/-- Model of getPatternsForSpecificOwner: the rules mentioning the owner
(kept with their list positions), their distinct patterns in first-occurrence
order as the include set, the overriding patterns of later rules accumulated
as a set, and the set difference removing include patterns from the exclude
set. -/
def getPatternsForSpecificOwner (s : CodeOwnerService) (owner : String) :
    OwnerPatternSets :=
  let ownerRules := s.codeOwnerRules.enum.filter
    (fun ir => decide (owner ∈ ir.2.owners))
  let ownerPatterns := (ownerRules.map (fun ir => ir.2.pattern)).foldl addOwner []
  if ownerPatterns.isEmpty then ⟨[], []⟩
  else
    let excludeSet := ownerRules.foldl
      (fun acc ir =>
        (findOverridingPatterns s.codeOwnerRules ir.1 ir.2.pattern owner).foldl
          addOwner acc) []
    ⟨ownerPatterns, excludeSet.filter (fun p => decide (p ∉ ownerPatterns))⟩

/-- Model of getFilePatternsForOwner: dispatch on the two synthetic owners,
then the specific-owner computation. -/
def getFilePatternsForOwner (s : CodeOwnerService) (owner : String) :
    OwnerPatternSets :=
  if owner = "unowned" then getPatternsForUnowned s
  else if owner = "owned-by-all" then getPatternsForAllOwned s
  else getPatternsForSpecificOwner s owner

/-- Model of generateIncludePatterns: render each pattern as a search glob. -/
def generateIncludePatterns (includePatterns : List String) : List String :=
  includePatterns.map (fun pattern =>
    if pattern = "*" then "**/*"
    else if jsStartsWith pattern "/" then jsDrop pattern 1
    else if jsEndsWith pattern "/" then pattern ++ "**/*"
    else if jsStartsWith pattern "*." then "**/" ++ pattern
    else "**/" ++ pattern)

/-- Model of generateExcludePatterns: the source body is textually identical
to generateIncludePatterns and is reproduced separately to compare the two. -/
def generateExcludePatterns (excludePatterns : List String) : List String :=
  excludePatterns.map (fun pattern =>
    if pattern = "*" then "**/*"
    else if jsStartsWith pattern "/" then jsDrop pattern 1
    else if jsEndsWith pattern "/" then pattern ++ "**/*"
    else if jsStartsWith pattern "*." then "**/" ++ pattern
    else "**/" ++ pattern)

/-- Modelled from the spec: the glob rendering rule of the specification
text, written independently for the refinement comparison of the rendering
functions: global star to a recursive glob, a leading slash stripped, a
trailing slash given the recursive suffix, extension patterns and all other
patterns prefixed to match at any depth. -/
def renderPatternSpec (pattern : String) : String :=
  if pattern = "*" then "**/*"
  else if jsStartsWith pattern "/" then jsDrop pattern 1
  else if jsEndsWith pattern "/" then pattern ++ "**/*"
  else if jsStartsWith pattern "*." then "**/" ++ pattern
  else "**/" ++ pattern

/-- A freshly constructed service before any initialization. -/
def initialState : CodeOwnerService :=
  ⟨[], [], none⟩

/-- Invariant carried through the line fold of the parser: the accumulated
owner set is duplicate-free, and each of its members contains an at sign and
occurs in the owner list of some already accumulated owned rule. -/
def accInv (acc : List CodeOwnerRule × List String) : Prop :=
  acc.2.Nodup ∧ ∀ o ∈ acc.2, jsIncludes o "@" = true ∧
    ∃ r ∈ acc.1, r.owners ≠ [] ∧ o ∈ r.owners

end SearchByCodeowner

namespace SearchByCodeowner

theorem foldl_inv {α β : Type} (P : α → Prop) (f : α → β → α)
    (hstep : ∀ a b, P a → P (f a b)) :
    ∀ (l : List β) (a : α), P a → P (l.foldl f a) := by
  intro l
  induction l with
  | nil => intro a h; exact h
  | cons x xs ih => intro a h; exact ih _ (hstep _ _ h)

theorem mem_addOwner {x a : String} {l : List String}
    (h : x ∈ addOwner l a) : x ∈ l ∨ x = a := by
  unfold addOwner at h
  split at h
  · exact Or.inl h
  · rcases List.mem_append.mp h with h1 | h1
    · exact Or.inl h1
    · exact Or.inr (List.mem_singleton.mp h1)

theorem mem_foldl_addOwner {x : String} :
    ∀ (ys l : List String), x ∈ ys.foldl addOwner l → x ∈ l ∨ x ∈ ys := by
  intro ys
  induction ys with
  | nil => intro l h; exact Or.inl h
  | cons y ys ih =>
    intro l h
    rcases ih (addOwner l y) h with h1 | h1
    · rcases mem_addOwner h1 with h2 | h2
      · exact Or.inl h2
      · exact Or.inr (by simp [h2])
    · exact Or.inr (List.mem_cons_of_mem _ h1)

theorem nodup_addOwner {l : List String} (a : String) (h : l.Nodup) :
    (addOwner l a).Nodup := by
  unfold addOwner
  split
  · exact h
  · rename_i hna
    simp [List.nodup_append, h, hna]

theorem nodup_foldl_addOwner :
    ∀ (ys l : List String), l.Nodup → (ys.foldl addOwner l).Nodup := by
  intro ys
  induction ys with
  | nil => intro l h; exact h
  | cons y ys ih => intro l h; exact ih _ (nodup_addOwner y h)

theorem includesAux_single_iff (c : Char) :
    ∀ l : List Char, includesAux [c] l = true ↔ c ∈ l := by
  intro l
  induction l with
  | nil => simp [includesAux]
  | cons d rest ih =>
    have hp : (([c] : List Char).isPrefixOf (d :: rest)) = (c == d) := by
      simp [List.isPrefixOf]
    rw [includesAux, hp]
    simp [ih]

theorem mem_dropWhile_of_not {c : Char} (hc : c.isWhitespace = false) :
    ∀ l : List Char, c ∈ l → c ∈ l.dropWhile Char.isWhitespace := by
  intro l
  induction l with
  | nil => intro h; exact absurd h (List.not_mem_nil c)
  | cons d rest ih =>
    intro h
    rw [List.dropWhile_cons]
    split
    · rename_i hd
      rcases List.mem_cons.mp h with h2 | h2
      · rw [h2] at hc; rw [hc] at hd; cases hd
      · exact ih h2
    · exact h

theorem mem_jsTrim_data {c : Char} (hc : c.isWhitespace = false) (t : String)
    (h : c ∈ t.data) : c ∈ (jsTrim t).data := by
  have h1 := mem_dropWhile_of_not hc t.data h
  have h2 : c ∈ (t.data.dropWhile Char.isWhitespace).reverse :=
    List.mem_reverse.mpr h1
  have h3 := mem_dropWhile_of_not hc _ h2
  exact List.mem_reverse.mpr h3

theorem jsIncludes_jsTrim {t : String} (h : jsIncludes t "@" = true) :
    jsIncludes (jsTrim t) "@" = true := by
  have hd : ("@" : String).data = ['@'] := rfl
  unfold jsIncludes at h ⊢
  rw [hd] at h ⊢
  rw [includesAux_single_iff] at h ⊢
  exact mem_jsTrim_data (by decide) t h

theorem parseLine_preserves_accInv (acc : List CodeOwnerRule × List String)
    (rawLine : String) (h : accInv acc) : accInv (parseLine acc rawLine) := by
  unfold parseLine
  split
  · exact h
  split
  · exact h
  split
  · exact h
  split
  · refine ⟨h.1, ?_⟩
    intro o ho
    obtain ⟨hinc, r, hr, hro, hmem⟩ := h.2 o ho
    exact ⟨hinc, r, List.mem_append_left _ hr, hro, hmem⟩
  · refine ⟨nodup_foldl_addOwner _ _ h.1, ?_⟩
    intro o ho
    rcases mem_foldl_addOwner _ _ ho with hold | hnew
    · obtain ⟨hinc, r, hr, hro, hmem⟩ := h.2 o hold
      exact ⟨hinc, r, List.mem_append_left _ hr, hro, hmem⟩
    · obtain ⟨t, ht, rfl⟩ := List.mem_map.mp hnew
      have htf := List.mem_filter.mp ht
      refine ⟨jsIncludes_jsTrim htf.2,
        ⟨(jsSplitWS (jsTrim rawLine)).headD "",
          ((jsSplitWS (jsTrim rawLine)).tail.filter
            (fun t => jsIncludes t "@")).map jsTrim⟩,
        List.mem_append_right _ (by simp), ?_, hnew⟩
      exact List.ne_nil_of_mem hnew

/-- C1: for the rule list with a star-dot-js rule owned by the frontend team
followed by a root-anchored api wildcard rule owned by the backend team, the
claim says resolve of the path api/server.js returns the backend owner.  The
code instead returns the frontend owner: the later pattern is handled by the
root-anchored branch, whose literal prefix comparison keeps the star and so
never matches the path.  This theorem evaluates the code at that failing
input and exhibits the non-matching prefix test. -/
theorem c1_resolve_at_failing_input :
    getCodeOwnerForFile (initializeState (some ("CODEOWNERS",
        "*.js @frontend\n/api/*.js @backend"))) "api/server.js" =
      ⟨["@frontend"], false, some "*.js"⟩ ∧
    matchesPattern "api/server.js" "/api/*.js" = false ∧
    matchesPattern "api/server.js" "*.js" = true ∧
    jsStartsWith "api/server.js" (jsDrop "/api/*.js" 1) = false := by
  decide

/-- C2 counterexample: the file consisting of the single rule line with the
bare pattern build/ and no owner tokens is skipped by the parser as an
invalid line of fewer than two tokens, so no owners-empty rule is produced
and the unowned pattern query falls back to the match-everything glob, which
does not include build/. -/
theorem c2_counterexample_bare_pattern_line :
    (parseCodeOwnersContent "build/" initialState).codeOwnerRules = [] ∧
    (getFilePatternsForOwner (parseCodeOwnersContent "build/" initialState)
        "unowned").includePatterns = ["**/*"] ∧
    "build/" ∉ (getFilePatternsForOwner
      (parseCodeOwnersContent "build/" initialState) "unowned").includePatterns := by
  decide

/-- C2 amended: a non-comment, non-blank line with at least two
whitespace-separated tokens, all of whose owner tokens fail the at-sign
filter, produces an owners-empty rule for its first token and leaves the
owner set untouched; a bare single-token pattern line is instead skipped as
invalid. -/
theorem c2_amended_filtered_owner_line (rules : List CodeOwnerRule)
    (ownersAcc : List String) (line : String)
    (hne : jsTrim line ≠ "")
    (hnc : jsStartsWith (jsTrim line) "#" = false)
    (hlen : 2 ≤ (jsSplitWS (jsTrim line)).length)
    (hall : ∀ t ∈ (jsSplitWS (jsTrim line)).tail, jsIncludes t "@" = false) :
    parseLine (rules, ownersAcc) line =
      (rules ++ [⟨(jsSplitWS (jsTrim line)).headD "", []⟩], ownersAcc) := by
  have hfil : (jsSplitWS (jsTrim line)).tail.filter
      (fun t => jsIncludes t "@") = [] := by
    apply List.filter_eq_nil_iff.mpr
    intro t ht
    simp [hall t ht]
  unfold parseLine
  rw [if_neg hne, if_neg (by simp [hnc]), if_neg (by omega), hfil]
  simp

/-- Witness for the amended C2 at the concrete line with pattern build/ and
the single at-sign-free owner token x: the parser emits the owners-empty rule
and the unowned pattern query then includes build/. -/
theorem c2_amended_witness :
    (jsTrim "build/ x" ≠ "" ∧ jsStartsWith (jsTrim "build/ x") "#" = false ∧
      2 ≤ (jsSplitWS (jsTrim "build/ x")).length ∧
      ∀ t ∈ (jsSplitWS (jsTrim "build/ x")).tail, jsIncludes t "@" = false) ∧
    parseLine ([], []) "build/ x" = ([⟨"build/", []⟩], []) ∧
    (getFilePatternsForOwner (parseCodeOwnersContent "build/ x" initialState)
      "unowned").includePatterns = ["build/"] := by
  have h := c2_amended_filtered_owner_line [] [] "build/ x" (by decide)
    (by decide) (by decide) (by decide)
  refine ⟨⟨by decide, by decide, by decide, by decide⟩, ?_, by decide⟩
  rw [h]
  decide

/-- C3 counterexample: with an owned star-dot-js rule and an explicit
unowned build/ rule, the owned-by-all query returns a nonempty include set
and nevertheless excludes the unowned pattern, refuting the claim that the
exclusion of unowned patterns belongs only to the empty-include fallback. -/
theorem c3_counterexample_excludes_despite_nonempty_include :
    getFilePatternsForOwner (parseCodeOwnersContent "*.js @a\nbuild/ x"
      initialState) "owned-by-all" = ⟨["*.js"], ["build/"]⟩ := by
  decide

/-- C3 amended: the owned-by-all query includes the union of all owned-rule
patterns, or the match-everything glob when that union is empty, and always
excludes every explicitly unowned pattern, in the fallback case or not. -/
theorem c3_amended_always_excludes_unowned (s : CodeOwnerService) :
    getFilePatternsForOwner s "owned-by-all" =
      ⟨(if ((s.codeOwnerRules.filter (fun r => !r.owners.isEmpty)).map
            (fun r => r.pattern)).length > 0
        then (s.codeOwnerRules.filter (fun r => !r.owners.isEmpty)).map
            (fun r => r.pattern)
        else ["**/*"]),
        (s.codeOwnerRules.filter (fun r => r.owners.isEmpty)).map
          (fun r => r.pattern)⟩ := rfl

/-- C4 counterexample: the pattern with a question mark and no star is not
decided by the regex branch.  At path ab.js the code answers false through
the exact-or-filename fallback, while the translated regex of that pattern
accepts the path, so the claimed routing is refuted at this input. -/
theorem c4_counterexample_question_mark_pattern :
    matchesPattern "ab.js" "a?.js" = false ∧
    wildcardRegexTest "ab.js" "a?.js" = true ∧
    jsIncludes "a?.js" "?" = true ∧
    jsIncludes "a?.js" "*" = false := by
  decide

/-- C4 amended: a pattern not classified by the earlier cases is decided by
the translated-regex branch exactly when it contains a star; a pattern with
no star, even one containing a question mark, falls through to the
exact-or-filename fallback whenever it contains a dot. -/
theorem c4_amended_wildcard_branching (path pattern : String)
    (h1 : pattern ≠ "*")
    (h2 : jsEndsWith pattern "/" = false)
    (h3 : jsStartsWith pattern "*." = false)
    (h4 : jsStartsWith pattern "/" = false) :
    (jsIncludes pattern "*" = true →
      matchesPattern path pattern = wildcardRegexTest path pattern) ∧
    (jsIncludes pattern "*" = false → jsIncludes pattern "." = true →
      matchesPattern path pattern =
        (decide (path = pattern) || jsEndsWith path ("/" ++ pattern))) := by
  constructor
  · intro hstar
    unfold matchesPattern
    rw [if_neg h1]
    simp [h2, h3, h4, hstar]
  · intro hstar hdot
    unfold matchesPattern
    rw [if_neg h1]
    simp [h2, h3, h4, hstar, hdot]

/-- Witness for the amended C4 at a concrete starred pattern and path. -/
theorem c4_amended_witness :
    ("a*.js" ≠ "*" ∧ jsEndsWith "a*.js" "/" = false ∧
      jsStartsWith "a*.js" "*." = false ∧ jsStartsWith "a*.js" "/" = false ∧
      jsIncludes "a*.js" "*" = true) ∧
    matchesPattern "axy.js" "a*.js" = wildcardRegexTest "axy.js" "a*.js" ∧
    matchesPattern "axy.js" "a*.js" = true := by
  refine ⟨⟨by decide, by decide, by decide, by decide, by decide⟩, ?_, by decide⟩
  exact (c4_amended_wildcard_branching "axy.js" "a*.js" (by decide) (by decide)
    (by decide) (by decide)).1 (by decide)

/-- C5: for the frontend extension rule followed by the backend root-anchored
api rule, the specific-owner query for the frontend owner includes the
extension pattern and excludes the later pattern: the override predicate
fires because the later pattern is path-qualified and ends with the same
extension suffix, and its owner list does not contain the frontend owner. -/
theorem c5_frontend_include_exclude :
    getFilePatternsForOwner (parseCodeOwnersContent
        "*.js @frontend\n/api/*.js @backend" initialState) "@frontend" =
      ⟨["*.js"], ["/api/*.js"]⟩ ∧
    wouldOverride "*.js" "/api/*.js" = true ∧
    jsIncludes "/api/*.js" "/" = true ∧
    jsEndsWith "/api/*.js" (jsDrop "*.js" 1) = true ∧
    "@frontend" ∉ (["@backend"] : List String) := by
  decide

/-- C6 counterexample: after initializing from an existing rule file whose
content is empty, the rule-file predicate is true, not false as the claim
states, because the located path is recorded before parsing. -/
theorem c6_counterexample_empty_file_found :
    hasCodeOwnersFile (initializeState (some ("CODEOWNERS", ""))) = true := by
  decide

/-- C6 amended: for an existing but empty rule file, the rule-file predicate
is true while resolution still returns unowned with an empty owner list for
every path and the owner catalog is empty; the rule-file predicate is false
only when no rule file is found at all. -/
theorem c6_amended_empty_rule_file (filePath path : String) :
    hasCodeOwnersFile (initializeState (some (filePath, ""))) = true ∧
    getCodeOwnerForFile (initializeState (some (filePath, ""))) path =
      ⟨[], true, none⟩ ∧
    getAllOwners (initializeState (some (filePath, ""))) = [] :=
  ⟨rfl, rfl, rfl⟩

/-- C7: for every parsed rule-file text, every owner of the catalog contains
an at sign and is drawn from the owner list of an owned rule, the synthetic
owners unowned and owned-by-all never appear, and the catalog is
duplicate-free and sorted. -/
theorem c7_owner_catalog_invariants (content : String) (s : CodeOwnerService) :
    (∀ o ∈ getAllOwners (parseCodeOwnersContent content s),
      jsIncludes o "@" = true ∧
      ∃ r ∈ (parseCodeOwnersContent content s).codeOwnerRules,
        r.owners ≠ [] ∧ o ∈ r.owners) ∧
    "unowned" ∉ getAllOwners (parseCodeOwnersContent content s) ∧
    "owned-by-all" ∉ getAllOwners (parseCodeOwnersContent content s) ∧
    (getAllOwners (parseCodeOwnersContent content s)).Nodup ∧
    List.Sorted (· ≤ ·) (getAllOwners (parseCodeOwnersContent content s)) := by
  have hinv : accInv ((jsSplitLines content).foldl parseLine ([], [])) :=
    foldl_inv accInv parseLine parseLine_preserves_accInv _ _
      ⟨List.nodup_nil, by simp⟩
  have hmem : ∀ o : String,
      o ∈ getAllOwners (parseCodeOwnersContent content s) ↔
      o ∈ ((jsSplitLines content).foldl parseLine ([], [])).2 :=
    fun o => List.mem_insertionSort _
  refine ⟨?_, ?_, ?_, ?_, ?_⟩
  · intro o ho
    obtain ⟨hinc, r, hr, hro, hmem2⟩ := hinv.2 o ((hmem o).mp ho)
    exact ⟨hinc, r, hr, hro, hmem2⟩
  · intro hcon
    have h1 := (hinv.2 _ ((hmem _).mp hcon)).1
    rw [show jsIncludes "unowned" "@" = false from by decide] at h1
    cases h1
  · intro hcon
    have h1 := (hinv.2 _ ((hmem _).mp hcon)).1
    rw [show jsIncludes "owned-by-all" "@" = false from by decide] at h1
    cases h1
  · exact ((List.perm_insertionSort _ _).nodup_iff).mpr hinv.1
  · exact List.sorted_insertionSort _ _

/-- C8: re-parsing identical text over the state produced by the first parse
yields the same state, the same rule list element for element, and the same
owner catalog, because the parser resets its accumulators and recomputes
them from the content alone while keeping the recorded file path. -/
theorem c8_reparse_idempotent (content : String) (s : CodeOwnerService) :
    parseCodeOwnersContent content (parseCodeOwnersContent content s) =
      parseCodeOwnersContent content s ∧
    (parseCodeOwnersContent content
        (parseCodeOwnersContent content s)).codeOwnerRules =
      (parseCodeOwnersContent content s).codeOwnerRules ∧
    getAllOwners (parseCodeOwnersContent content
        (parseCodeOwnersContent content s)) =
      getAllOwners (parseCodeOwnersContent content s) :=
  ⟨rfl, rfl, rfl⟩

/-- C9: the include and exclude glob renderers compute the same function,
and that function is the per-pattern mapping stated by the specification:
global star to the recursive glob, leading slash stripped, trailing slash
given the recursive directory suffix, extension patterns and all other
patterns prefixed to match at any depth. -/
theorem c9_render_functions_identical (patterns : List String) :
    generateIncludePatterns patterns = generateExcludePatterns patterns ∧
    generateIncludePatterns patterns = patterns.map renderPatternSpec :=
  ⟨rfl, rfl⟩

/-- C10: a pattern that both starts and ends with a slash is rendered by
both glob renderers with only the leading slash stripped, and the recursive
directory suffix is not appended: the leading-slash case precedes the
trailing-slash case in the rendering chain. -/
theorem c10_rooted_directory_render (p : String)
    (h1 : jsStartsWith p "/" = true) (h2 : jsEndsWith p "/" = true) :
    generateIncludePatterns [p] = [jsDrop p 1] ∧
    generateExcludePatterns [p] = [jsDrop p 1] := by
  have hne : p ≠ "*" := by
    intro hp
    rw [hp] at h1
    exact absurd h1 (by decide)
  constructor <;>
    simp [generateIncludePatterns, generateExcludePatterns, hne, h1]

/-- Witness for C10 at the concrete pattern slash docs slash. -/
theorem c10_witness :
    (jsStartsWith "/docs/" "/" = true ∧ jsEndsWith "/docs/" "/" = true) ∧
    generateIncludePatterns ["/docs/"] = ["docs/"] ∧
    generateExcludePatterns ["/docs/"] = ["docs/"] := by
  have h := c10_rooted_directory_render "/docs/" (by decide) (by decide)
  refine ⟨⟨by decide, by decide⟩, ?_, ?_⟩
  · rw [h.1]; decide
  · rw [h.2]; decide

end SearchByCodeowner
